import Mathlib

/-!
# Verification of the stock-dashboard caching / market-hours core

Shallow embedding of the client-side data-freshness layer of the
stock-dashboard repository:

* the market-calendar utilities (`getETDateParts`, `isWeekday`,
  `isMarketOpen`, `getMarketCloseTime`, `getNextMarketOpen`,
  `getCacheDuration`) from the `marketHours` module;
* the Alpha Vantage service layer (`parseInformationMessage`,
  `ensureApiKeyConfigured`, `waitForRateLimit`, `getCachedData`,
  `setCachedData`, `fetchQuote`, `fetchMultipleQuotes`,
  `fetchWeeklyTimeSeries` bar normalization, `fetchListingStatus`).

Modelling conventions:

* Instants are natural numbers of milliseconds.  The source resolves
  calendar fields with `Intl.DateTimeFormat` in the `America/New_York`
  timezone; we model Eastern Time as a fixed-offset clock in which
  instant `0` is a Monday at `00:00:00.000` local time, and derive the
  weekday / hour / minute / second fields arithmetically.  This is
  faithful to the source on any daylight-saving-stable stretch of time;
  DST transition instants are outside the model.
* JavaScript numbers standing for prices are modelled as rationals
  (the provider's decimal-string parsing is a black-box collaborator
  per the specification).
* Asynchronous effects (network, `localStorage`, timers) are threaded
  explicitly: the HTTP response is an input, the persistent store is a
  function argument and result, and `Date.now()` is an explicit `now`
  parameter.
-/

namespace StockDashboard

/-! ## Market calendar (`marketHours` module)

`getETDateParts` in the source formats an instant in the fixed exchange
timezone and extracts `{hour, minute, second, weekday}` (the claims
never touch year/month/day).  We model those fields arithmetically on
the fixed-offset Eastern clock described in the header. -/

/-- Milliseconds of `t` elapsed since local (Eastern) midnight. -/
def etTimeOfDay (t : ℕ) : ℕ := t % 86400000

/-- The `hour` field of `getETDateParts` (0–23, 24-hour clock). -/
def etHour (t : ℕ) : ℕ := etTimeOfDay t / 3600000

/-- The `minute` field of `getETDateParts` (0–59). -/
def etMinute (t : ℕ) : ℕ := etTimeOfDay t % 3600000 / 60000

/-- The `second` field of `getETDateParts` (0–59). -/
def etSecond (t : ℕ) : ℕ := etTimeOfDay t % 60000 / 1000

/-- Day-of-week index of `t` on the fixed-offset Eastern clock:
`0 = Monday, …, 4 = Friday, 5 = Saturday, 6 = Sunday` (instant `0` of
the model is a Monday midnight). -/
def weekdayIdx (t : ℕ) : ℕ := t / 86400000 % 7

/-- Canonical English day name for a day index, as produced by the
`weekday: 'long'` option of the source's formatter. -/
def dayName : ℕ → String
  | 0 => "Monday"
  | 1 => "Tuesday"
  | 2 => "Wednesday"
  | 3 => "Thursday"
  | 4 => "Friday"
  | 5 => "Saturday"
  | _ => "Sunday"

/-- The `weekday` field of `getETDateParts`. -/
def etWeekdayName (t : ℕ) : String := dayName (weekdayIdx t)

/-- `isWeekday` from the source:
`!['Saturday', 'Sunday'].includes(parts.weekday)`. -/
def isWeekday (t : ℕ) : Prop :=
  ¬(etWeekdayName t = "Saturday" ∨ etWeekdayName t = "Sunday")

instance (t : ℕ) : Decidable (isWeekday t) := by
  unfold isWeekday; infer_instance

/-- `isMarketOpen` from the source: weekday, and
`(hour > 9 || (hour === 9 && minute >= 30)) && hour < 16`. -/
def isMarketOpen (t : ℕ) : Prop :=
  isWeekday t ∧ (9 < etHour t ∨ (etHour t = 9 ∧ 30 ≤ etMinute t)) ∧ etHour t < 16

instance (t : ℕ) : Decidable (isMarketOpen t) := by
  unfold isMarketOpen; infer_instance

/-- `getMarketCloseTime` from the source: minutes until 16:00 today if
the 16:00 minute has not been reached, else until 16:00 tomorrow, added
to `date.getTime()`. -/
def getMarketCloseTime (t : ℕ) : ℕ :=
  let currentMinuteOfDay := etHour t * 60 + etMinute t
  let closeMinuteOfDay := 16 * 60
  let minutesUntilClose :=
    if currentMinuteOfDay < closeMinuteOfDay then
      closeMinuteOfDay - currentMinuteOfDay
    else
      (24 * 60 - currentMinuteOfDay) + closeMinuteOfDay
  t + minutesUntilClose * 60 * 1000

/-- `getNextMarketOpen` from the source, with its five-way branch on
the weekday name and the minute-of-day. -/
def getNextMarketOpen (t : ℕ) : ℕ :=
  let currentMinuteOfDay := etHour t * 60 + etMinute t
  let openMinuteOfDay := 9 * 60 + 30
  let weekday := etWeekdayName t
  let minutesUntilOpen :=
    if weekday = "Saturday" then
      (24 * 60 - currentMinuteOfDay) + 24 * 60 + openMinuteOfDay
    else if weekday = "Sunday" then
      (24 * 60 - currentMinuteOfDay) + openMinuteOfDay
    else if currentMinuteOfDay < openMinuteOfDay then
      openMinuteOfDay - currentMinuteOfDay
    else if weekday = "Friday" then
      (24 * 60 - currentMinuteOfDay) + 24 * 60 + 24 * 60 + openMinuteOfDay
    else
      (24 * 60 - currentMinuteOfDay) + openMinuteOfDay
  t + minutesUntilOpen * 60 * 1000

/-- `getCacheDuration(cacheType, timestamp)` from the source.  In the
source `nextOpen - timestamp` and `closeTime - timestamp` are ordinary
number subtractions; both minuends are of the form `timestamp + d`, so
truncated subtraction on `ℕ` agrees with them. -/
def getCacheDuration (cacheType : String) (timestamp : ℕ) : ℕ :=
  if cacheType = "quote" then
    if isMarketOpen timestamp then
      2 * 60 * 1000
    else
      max (60 * 1000) (getNextMarketOpen timestamp - timestamp)
  else if cacheType = "chart" then
    max (60 * 1000) (getMarketCloseTime timestamp - timestamp)
  else if cacheType = "chart_weekly" then
    7 * 24 * 60 * 60 * 1000
  else if cacheType = "listing" then
    30 * 24 * 60 * 60 * 1000
  else
    7 * 24 * 60 * 60 * 1000

/-! ### Specification-side calendar predicates

These restate the spec's wording ("Monday–Friday with Eastern time-of-day
in [09:30:00, 16:00:00)", "a Mon–Fri instant at exactly 09:30:00")
directly in terms of the raw clock, independently of the source's
hour/minute comparisons, so the theorems below genuinely compare the
two. -/

/-- Spec wording of "the market session is open at `t`": Monday–Friday
and Eastern time-of-day in `[09:30:00, 16:00:00)`. -/
def marketOpenSpec (t : ℕ) : Prop :=
  weekdayIdx t < 5 ∧ 34200000 ≤ etTimeOfDay t ∧ etTimeOfDay t < 57600000

instance (t : ℕ) : Decidable (marketOpenSpec t) := by
  unfold marketOpenSpec; infer_instance

/-- Spec wording of "an instant that falls on a Monday–Friday at exactly
09:30:00 Eastern Time". -/
def isOpenBoundary (u : ℕ) : Prop :=
  weekdayIdx u < 5 ∧ etTimeOfDay u = 34200000

instance (u : ℕ) : Decidable (isOpenBoundary u) := by
  unfold isOpenBoundary; infer_instance

/-! ### Calendar helper lemmas -/

lemma weekdayIdx_lt_seven (t : ℕ) : weekdayIdx t < 7 :=
  Nat.mod_lt _ (by norm_num)

lemma etWeekdayName_eq_saturday (t : ℕ) :
    etWeekdayName t = "Saturday" ↔ weekdayIdx t = 5 := by
  have h7 := weekdayIdx_lt_seven t
  unfold etWeekdayName
  rcases (show weekdayIdx t = 0 ∨ weekdayIdx t = 1 ∨ weekdayIdx t = 2 ∨
      weekdayIdx t = 3 ∨ weekdayIdx t = 4 ∨ weekdayIdx t = 5 ∨
      weekdayIdx t = 6 by omega) with h | h | h | h | h | h | h <;>
    rw [h] <;> decide

lemma etWeekdayName_eq_sunday (t : ℕ) :
    etWeekdayName t = "Sunday" ↔ weekdayIdx t = 6 := by
  have h7 := weekdayIdx_lt_seven t
  unfold etWeekdayName
  rcases (show weekdayIdx t = 0 ∨ weekdayIdx t = 1 ∨ weekdayIdx t = 2 ∨
      weekdayIdx t = 3 ∨ weekdayIdx t = 4 ∨ weekdayIdx t = 5 ∨
      weekdayIdx t = 6 by omega) with h | h | h | h | h | h | h <;>
    rw [h] <;> decide

lemma etWeekdayName_eq_friday (t : ℕ) :
    etWeekdayName t = "Friday" ↔ weekdayIdx t = 4 := by
  have h7 := weekdayIdx_lt_seven t
  unfold etWeekdayName
  rcases (show weekdayIdx t = 0 ∨ weekdayIdx t = 1 ∨ weekdayIdx t = 2 ∨
      weekdayIdx t = 3 ∨ weekdayIdx t = 4 ∨ weekdayIdx t = 5 ∨
      weekdayIdx t = 6 by omega) with h | h | h | h | h | h | h <;>
    rw [h] <;> decide

lemma isWeekday_iff (t : ℕ) : isWeekday t ↔ weekdayIdx t < 5 := by
  unfold isWeekday
  rw [etWeekdayName_eq_saturday, etWeekdayName_eq_sunday]
  have h7 := weekdayIdx_lt_seven t
  omega

lemma isMarketOpen_iff (t : ℕ) : isMarketOpen t ↔ marketOpenSpec t := by
  unfold isMarketOpen marketOpenSpec
  rw [isWeekday_iff]
  unfold etHour etMinute etTimeOfDay
  omega

/-- Restating `getNextMarketOpen` with the weekday-name tests replaced
by day-index tests, so the arithmetic lemmas below can case-split with
`omega`-friendly conditions. -/
lemma getNextMarketOpen_eq (t : ℕ) :
    getNextMarketOpen t =
      t + (if weekdayIdx t = 5 then
             (24 * 60 - (etHour t * 60 + etMinute t)) + 24 * 60 + 570
           else if weekdayIdx t = 6 then
             (24 * 60 - (etHour t * 60 + etMinute t)) + 570
           else if etHour t * 60 + etMinute t < 570 then
             570 - (etHour t * 60 + etMinute t)
           else if weekdayIdx t = 4 then
             (24 * 60 - (etHour t * 60 + etMinute t)) + 24 * 60 + 24 * 60 + 570
           else
             (24 * 60 - (etHour t * 60 + etMinute t)) + 570) * 60 * 1000 := by
  unfold getNextMarketOpen
  simp only [etWeekdayName_eq_saturday, etWeekdayName_eq_sunday,
    etWeekdayName_eq_friday]

/-- **C1.** For every capture instant `t`, the cache-policy duration for
the `quote` category is exactly 2 minutes (120000 ms) when the market
session is open at `t` — "open" meaning Monday–Friday with Eastern
time-of-day in `[09:30:00, 16:00:00)` — and otherwise equals the time
from `t` until the next market open, floored at 1 minute (60000 ms). -/
theorem quote_cache_duration_spec (t : ℕ) :
    getCacheDuration "quote" t =
      if marketOpenSpec t then 120000
      else max 60000 (getNextMarketOpen t - t) := by
  unfold getCacheDuration
  rw [if_pos rfl]
  by_cases h : marketOpenSpec t
  · rw [if_pos ((isMarketOpen_iff t).mpr h), if_pos h]
  · rw [if_neg (fun ho => h ((isMarketOpen_iff t).mp ho)), if_neg h]

/-- **C3 counterexample.** At `t =` Monday 09:29:30 (model instant
34170000), `getNextMarketOpen t` is Monday 09:30:30 — not an instant
whose Eastern time-of-day is exactly 09:30:00 — and the genuine open
boundary Monday 09:30:00 (instant 34200000) lies strictly between `t`
and the returned instant, so the returned instant is also not minimal.
The source ignores the seconds field when computing minutes-until-open. -/
theorem nextOpen_counterexample :
    getNextMarketOpen 34170000 = 34230000 ∧
      ¬ isOpenBoundary (getNextMarketOpen 34170000) ∧
      isOpenBoundary 34200000 ∧ 34170000 < 34200000 ∧
      34200000 < getNextMarketOpen 34170000 := by
  refine ⟨by decide, ?_, by decide, by decide, by decide⟩
  decide

/-- **C3 (amended).** For every instant `t` aligned to a whole minute
(`t % 60000 = 0`, i.e. zero seconds/milliseconds on the Eastern clock),
`getNextMarketOpen t` falls on a Monday–Friday at exactly 09:30:00
Eastern Time, is strictly greater than `t` (also when `t` is itself an
open boundary: the source then skips to the next trading day), and no
smaller instant with that property exceeds `t`.  In particular a Friday
afternoon, a Saturday and a Sunday all map to the following Monday
09:30:00 and a weekday before 09:30 maps to the same day 09:30:00.  For
instants not aligned to a whole minute the result is offset from
09:30:00 by the sub-minute part of `t` (see the counterexample). -/
theorem nextOpen_minute_aligned_spec (t : ℕ) (h : t % 60000 = 0) :
    isOpenBoundary (getNextMarketOpen t) ∧ t < getNextMarketOpen t ∧
      ∀ u, isOpenBoundary u → t < u → getNextMarketOpen t ≤ u := by
  rw [getNextMarketOpen_eq]
  simp only [isOpenBoundary, weekdayIdx, etHour, etMinute, etTimeOfDay]
  refine ⟨?_, ?_, ?_⟩
  · split_ifs with h5 h6 hcur h4 <;> omega
  · split_ifs with h5 h6 hcur h4 <;> omega
  · intro u hu htu
    obtain ⟨hu1, hu2⟩ := hu
    split_ifs with h5 h6 hcur h4 <;> omega

/-- **C3 witness.** Saturday 13:07 (a minute-aligned instant) satisfies
the amended theorem; the computed next open is the following Monday
09:30:00. -/
theorem nextOpen_minute_aligned_witness :
    479220000 % 60000 = 0 ∧
      (isOpenBoundary (getNextMarketOpen 479220000) ∧
        479220000 < getNextMarketOpen 479220000 ∧
        ∀ u, isOpenBoundary u → 479220000 < u →
          getNextMarketOpen 479220000 ≤ u) :=
  ⟨by decide, nextOpen_minute_aligned_spec 479220000 (by decide)⟩

/-- **C4 counterexample.** At `t =` Saturday 12:00 (model instant
475200000), `getMarketCloseTime t` is Saturday 16:00 (instant
489600000), which does not fall on a Monday–Friday: the source's close
computation rolls to "tomorrow" with no weekend handling, so a Friday
evening or weekend instant yields a weekend close. -/
theorem marketClose_counterexample :
    weekdayIdx 475200000 = 5 ∧
      getMarketCloseTime 475200000 = 489600000 ∧
      weekdayIdx (getMarketCloseTime 475200000) = 5 := by
  refine ⟨by decide, by decide, by decide⟩

/-- **C4 (amended).** For every instant `t`, both `getNextMarketOpen t`
and `getMarketCloseTime t` are strictly in the future relative to `t`
(never equal, even at a boundary), and `getNextMarketOpen t` always
lands on a Monday–Friday; but `getMarketCloseTime t` only lands at the
16:00 minute of the same or next calendar day, which need not be a
weekday (see the counterexample for a Saturday input). -/
theorem boundaries_future_spec (t : ℕ) :
    t < getNextMarketOpen t ∧ weekdayIdx (getNextMarketOpen t) < 5 ∧
      t < getMarketCloseTime t ∧
      etHour (getMarketCloseTime t) * 60 + etMinute (getMarketCloseTime t)
        = 960 := by
  rw [getNextMarketOpen_eq]
  simp only [getMarketCloseTime, weekdayIdx, etHour, etMinute, etTimeOfDay]
  refine ⟨?_, ?_, ?_, ?_⟩ <;> split_ifs <;> omega

/-! ## JavaScript string primitives

The service layer uses `String.prototype.trim`, `String.prototype.toUpperCase`
and a global regex replace.  We model them explicitly over the character
list of the string (ASCII scope, matching every string the source ever
feeds them). -/

/-- JavaScript `s.trim()`: strip leading and trailing whitespace. -/
def jsTrim (s : String) : String :=
  ⟨((s.data.dropWhile Char.isWhitespace).reverse.dropWhile
      Char.isWhitespace).reverse⟩

/-- JavaScript `s.toUpperCase()` (ASCII scope). -/
def jsToUpper (s : String) : String :=
  ⟨s.data.map Char.toUpper⟩

/-- A character matched by the character class `[A-Z0-9]` of the
sanitizing regex. -/
def isApiKeyChar (c : Char) : Bool :=
  (decide ('A' ≤ c) && decide (c ≤ 'Z')) || (decide ('0' ≤ c) && decide (c ≤ '9'))

/-- Worker for `s.replace(/[A-Z0-9]{16,}/g, '[API_KEY]')`: accumulate the
current (reversed) run of `[A-Z0-9]` characters in `run`; when the run
ends (non-matching character or end of input), emit `[API_KEY]` in its
place if it is 16 characters or longer, else emit it unchanged.  This is
exactly the effect of the global greedy regex: every maximal run of 16
or more key characters is replaced. -/
def sanitizeAux (run : List Char) : List Char → List Char
  | [] =>
      if 16 ≤ run.length then "[API_KEY]".data else run.reverse
  | c :: cs =>
      if isApiKeyChar c then
        sanitizeAux (c :: run) cs
      else
        (if 16 ≤ run.length then "[API_KEY]".data else run.reverse)
          ++ c :: sanitizeAux [] cs

/-- `trimmed.replace(/[A-Z0-9]{16,}/g, '[API_KEY]')` from
`parseInformationMessage`. -/
def sanitizeApiKey (s : String) : String :=
  ⟨sanitizeAux [] s.data⟩

/-- Scanner: `true` iff the list contains no run of 16 consecutive
`[A-Z0-9]` characters; `count` is the length of the key-character run
immediately preceding the scanned suffix. -/
def noLongKeyRunAux (count : ℕ) : List Char → Bool
  | [] => true
  | c :: cs =>
      if isApiKeyChar c then
        decide (count + 1 ≤ 15) && noLongKeyRunAux (count + 1) cs
      else
        noLongKeyRunAux 0 cs

/-- `true` iff no 16 consecutive characters of the list are all in
`[A-Z0-9]` — in particular no 16-character-or-longer API-key-like token
occurs in it verbatim. -/
def noLongKeyRun (l : List Char) : Bool := noLongKeyRunAux 0 l

/-! ## Rate limiter (`waitForRateLimit`)

The source keeps a module-global `lastApiCallTime`, compares `Date.now()`
against it, sleeps for the remaining difference when the gap is below
`MIN_API_CALL_INTERVAL`, and then stamps `lastApiCallTime = Date.now()`.
We thread the global explicitly: the function maps the recorded last
call time and the current clock to the sleep amount and the newly
stamped last call time (the re-read `Date.now()` after an exact sleep). -/

/-- `MIN_API_CALL_INTERVAL = 1200` ("1.2 seconds to be safe"). -/
def MIN_API_CALL_INTERVAL : ℤ := 1200

/-- `waitForRateLimit` as a state transition: given the recorded
`lastApiCallTime` and the clock `now`, return `(waitTime, newLast)`. -/
def waitForRateLimit (lastApiCallTime now : ℤ) : ℤ × ℤ :=
  let timeSinceLastCall := now - lastApiCallTime
  if timeSinceLastCall < MIN_API_CALL_INTERVAL then
    let waitTime := MIN_API_CALL_INTERVAL - timeSinceLastCall
    (waitTime, now + waitTime)
  else
    (0, now)

/-- **C7.** The acquire step suspends for exactly the remaining
difference when the gap since `lastApiCallTime` is below 1200 ms and
never suspends otherwise, and the newly stamped last-call time — the
start of the later request — is at least 1200 ms after the recorded
start of the earlier one; moreover any wake-up instant no earlier than
`now + waitTime` (an over-sleeping timer) preserves the 1200 ms gap. -/
theorem waitForRateLimit_spec (last now : ℤ) :
    (waitForRateLimit last now).2 = now + (waitForRateLimit last now).1 ∧
      last + 1200 ≤ (waitForRateLimit last now).2 ∧
      (now - last < 1200 →
        (waitForRateLimit last now).1 = 1200 - (now - last)) ∧
      (1200 ≤ now - last → (waitForRateLimit last now).1 = 0) ∧
      ∀ wake : ℤ, now + (waitForRateLimit last now).1 ≤ wake →
        last + 1200 ≤ wake := by
  simp only [waitForRateLimit, MIN_API_CALL_INTERVAL]
  split_ifs with hgap <;> dsimp only <;>
    refine ⟨by omega, by omega, by omega, by omega, fun wake hw => by omega⟩

/-- **C7 witness.** With a recorded last call at 0 and the clock at 500,
the limiter suspends for 700 ms and restamps at 1200. -/
theorem waitForRateLimit_witness :
    (waitForRateLimit 0 500).1 = 1200 - (500 - 0) ∧
      (0 : ℤ) + 1200 ≤ (waitForRateLimit 0 500).2 :=
  ⟨(waitForRateLimit_spec 0 500).2.2.1 (by norm_num),
    (waitForRateLimit_spec 0 500).2.1⟩

/-! ## Adjusted bar normalization (`fetchWeeklyTimeSeries` /
`fetchMonthlyTimeSeries`)

For each bar of an adjusted series the source computes
`adjustmentFactor = adjustedClose / close` once and maps the bar to
`{open: open*f, high: high*f, low: low*f, close: adjustedClose, volume}`.
Prices are modelled as rationals (decimal-string parsing is a black-box
collaborator). -/

/-- One normalized OHLCV bar. -/
structure Bar where
  openPrice : ℚ
  high : ℚ
  low : ℚ
  close : ℚ
  volume : ℤ
deriving DecidableEq

/-- The per-bar body of the `dates.map` in `fetchWeeklyTimeSeries` and
`fetchMonthlyTimeSeries` (the date/timestamp fields carry over
unchanged and are omitted). -/
def normalizeAdjustedBar (openPrice high low close adjustedClose : ℚ)
    (volume : ℤ) : Bar :=
  let adjustmentFactor := adjustedClose / close
  { openPrice := openPrice * adjustmentFactor
    high := high * adjustmentFactor
    low := low * adjustmentFactor
    close := adjustedClose
    volume := volume }

/-- **C5.** For every adjusted bar with raw close `c ≠ 0` and adjusted
close `a`, the normalized bar has open/high/low equal to the raw values
multiplied by the single ratio `a / c` (stated cross-multiplied:
`normalized * c = raw * a`) and close equal to `a` unchanged. -/
theorem adjusted_bar_normalization_spec (o h l c a : ℚ) (v : ℤ)
    (hc : c ≠ 0) :
    (normalizeAdjustedBar o h l c a v).openPrice * c = o * a ∧
      (normalizeAdjustedBar o h l c a v).high * c = h * a ∧
      (normalizeAdjustedBar o h l c a v).low * c = l * a ∧
      (normalizeAdjustedBar o h l c a v).close = a := by
  unfold normalizeAdjustedBar
  refine ⟨?_, ?_, ?_, rfl⟩ <;> dsimp only <;> field_simp

/-- **C5 witness.** A bar with `close = 100`, `adjustedClose = 95`,
`open = 110` normalizes to `open = 104.5` (ratio 0.95 applied
uniformly). -/
theorem adjusted_bar_normalization_witness :
    (100 : ℚ) ≠ 0 ∧
      ((normalizeAdjustedBar 110 120 90 100 95 1000).openPrice * 100
          = 110 * 95 ∧
        (normalizeAdjustedBar 110 120 90 100 95 1000).high * 100
          = 120 * 95 ∧
        (normalizeAdjustedBar 110 120 90 100 95 1000).low * 100
          = 90 * 95 ∧
        (normalizeAdjustedBar 110 120 90 100 95 1000).close = 95) ∧
      (normalizeAdjustedBar 110 120 90 100 95 1000).openPrice = 104.5 :=
  ⟨by norm_num,
    adjusted_bar_normalization_spec 110 120 90 100 95 1000 (by norm_num),
    by norm_num [normalizeAdjustedBar]⟩

/-! ## Persistent entry store (`localStorage` + `getCachedData` /
`setCachedData`)

`localStorage` is a string-keyed store of JSON strings `{data, timestamp}`.
We model it as a typed key-value map per payload family (the source's
key prefixes keep the families disjoint), with JSON round-tripping a
black-box collaborator. -/

/-- A stored cache entry `{data, timestamp}`. -/
structure CacheEntry (α : Type) where
  data : α
  timestamp : ℕ
deriving DecidableEq

/-- The persistent store: key to optional entry. -/
def Store (α : Type) : Type := String → Option (CacheEntry α)

/-- `localStorage.setItem(key, JSON.stringify({data, timestamp: Date.now()}))`. -/
def Store.set {α : Type} (store : Store α) (key : String) (value : α)
    (now : ℕ) : Store α :=
  fun k => if k = key then some ⟨value, now⟩ else store k

/-- The everywhere-empty store. -/
def Store.empty {α : Type} : Store α := fun _ => none

/-- `getCachedData(key, cacheType)`: read the entry; compute the dynamic
cache duration from the entry's own timestamp; return the payload only
while `age < cacheDuration` (the source's `Date.now() - timestamp` is
non-negative under a monotone clock, matching truncated subtraction). -/
def getCachedData {α : Type} (store : Store α) (key : String)
    (cacheType : String) (now : ℕ) : Option α :=
  match store key with
  | none => none
  | some entry =>
      if now - entry.timestamp < getCacheDuration cacheType entry.timestamp then
        some entry.data
      else
        none

/-- `setCachedData(key, data)`. -/
def setCachedData {α : Type} (store : Store α) (key : String) (value : α)
    (now : ℕ) : Store α :=
  Store.set store key value now

/-! ## Quote fetcher (`fetchQuote` and its helpers) -/

/-- The `PLACEHOLDER_KEYS` set. -/
def PLACEHOLDER_KEYS : List String := ["", "DISABLED", "YOUR_API_KEY", "CHANGEME"]

/-- The module-level constant is
`API_KEY = (import.meta.env.VITE_ALPHA_VANTAGE_API_KEY || "").trim()`;
`ensureApiKeyConfigured` throws iff
`!API_KEY || PLACEHOLDER_KEYS.has(API_KEY.toUpperCase())`.  We take the
raw environment string as input and fold the module-level trim in. -/
def apiKeyMissing (rawKey : String) : Bool :=
  let API_KEY := jsTrim rawKey
  API_KEY == "" || PLACEHOLDER_KEYS.contains (jsToUpper API_KEY)

/-- The message of the configuration error thrown by
`ensureApiKeyConfigured`. -/
def apiKeyErrorMessage : String :=
  "Alpha Vantage API key is missing. Set VITE_ALPHA_VANTAGE_API_KEY in your .env file."

/-- `parseInformationMessage(info)`: `null` for an absent/empty/blank
message, else the trimmed message with API-key-like tokens replaced. -/
def parseInformationMessage (info : Option String) : Option String :=
  match info with
  | none => none
  | some s =>
      if s = "" then none
      else
        let trimmed := jsTrim s
        if trimmed = "" then none else some (sanitizeApiKey trimmed)

/-- The normalized quote record produced by `fetchQuote`. -/
structure Quote where
  symbol : String
  price : ℚ
  change : ℚ
  previousClose : ℚ
  high : ℚ
  low : ℚ
  openPrice : ℚ
deriving DecidableEq

/-- The provider's `Global Quote` object.  Numeric fields are the
black-box-parsed values of the corresponding decimal strings (`change`
already has the trailing `%` stripped); `price` is `none` when
`"05. price"` is absent or empty (the source's falsy test). -/
structure GlobalQuote where
  price : Option ℚ
  changePercent : ℚ
  previousClose : ℚ
  high : ℚ
  low : ℚ
  openPrice : ℚ
deriving DecidableEq

/-- Outcome of the HTTP collaborator for a JSON endpoint: a non-success
transport status, or a JSON body with the provider's optional
`Information` / `Note` / `Error Message` fields and optional payload. -/
inductive HttpResponse (β : Type) where
  | transportError (statusText : String)
  | ok (information note errorMessage : Option String) (body : Option β)
deriving DecidableEq

/-- Cache key prefix for quotes. -/
def CACHE_KEY_PREFIX : String := "stock_quote_"

/-- `fetchQuote(symbol, useCache)` with the effects threaded explicitly:
the store before the call and `Date.now()` are inputs, the HTTP response
the call would receive is an input, and the result is the returned value
or thrown error message, paired with the store after the call.  The
`waitForRateLimit` step only touches the rate-limiter global (modelled
separately) and is elided here. -/
def fetchQuote (rawKey : String) (store : Store Quote) (now : ℕ)
    (response : HttpResponse GlobalQuote) (symbol : String)
    (useCache : Bool := true) : Except String Quote × Store Quote :=
  let cacheKey := CACHE_KEY_PREFIX ++ symbol
  match (if useCache then getCachedData store cacheKey "quote" now else none) with
  | some cached => (.ok cached, store)
  | none =>
      if apiKeyMissing rawKey then
        (.error apiKeyErrorMessage, store)
      else
        match response with
        | .transportError statusText =>
            (.error ("Failed to fetch " ++ symbol ++ ": " ++ statusText), store)
        | .ok information note errorMessage body =>
            match parseInformationMessage information with
            | some infoMessage => (.error infoMessage, store)
            | none =>
                match parseInformationMessage note with
                | some noteMessage => (.error noteMessage, store)
                | none =>
                    if errorMessage.getD "" ≠ "" then
                      (.error (errorMessage.getD ""), store)
                    else
                      match body with
                      | none => (.error ("No data available for " ++ symbol), store)
                      | some quote =>
                          match quote.price with
                          | none =>
                              (.error ("No data available for " ++ symbol), store)
                          | some price =>
                              let result : Quote :=
                                { symbol := symbol
                                  price := price
                                  change := quote.changePercent
                                  previousClose := quote.previousClose
                                  high := quote.high
                                  low := quote.low
                                  openPrice := quote.openPrice }
                              (.ok result,
                                setCachedData store cacheKey result now)

/-! ### Fetcher lemmas -/

lemma jsToUpper_eq_empty_iff (s : String) : jsToUpper s = "" ↔ s = "" := by
  unfold jsToUpper
  constructor
  · intro h
    have hdata : s.data.map Char.toUpper = [] := congrArg String.data h
    exact String.ext (List.map_eq_nil_iff.mp hdata)
  · intro h
    rw [h]
    rfl

lemma getCachedData_some {α : Type} {store : Store α} {key cacheType : String}
    {now : ℕ} {v : α} (h : getCachedData store key cacheType now = some v) :
    ∃ ts, store key = some ⟨v, ts⟩ := by
  unfold getCachedData at h
  cases he : store key with
  | none => rw [he] at h; exact absurd h (by simp)
  | some entry =>
      rw [he] at h
      dsimp only at h
      split_ifs at h with hv
      injection h with h'
      exact ⟨entry.timestamp, by rw [← h']⟩

/-- Every run of `fetchQuote` is a cache hit returning the cached quote
with the store untouched, an error with the store untouched, or a
network success whose result is written through under the quote cache
key. -/
lemma fetchQuote_cases (rawKey : String) (store : Store Quote) (now : ℕ)
    (response : HttpResponse GlobalQuote) (symbol : String) (useCache : Bool) :
    (∃ q, (if useCache then
        getCachedData store (CACHE_KEY_PREFIX ++ symbol) "quote" now
      else none) = some q ∧
      fetchQuote rawKey store now response symbol useCache = (.ok q, store)) ∨
    (∃ e, fetchQuote rawKey store now response symbol useCache
        = (.error e, store)) ∨
    (∃ q, fetchQuote rawKey store now response symbol useCache
        = (.ok q, setCachedData store (CACHE_KEY_PREFIX ++ symbol) q now)) := by
  simp only [fetchQuote]
  cases hc : (if useCache then
      getCachedData store (CACHE_KEY_PREFIX ++ symbol) "quote" now
    else none) with
  | some cached => exact .inl ⟨cached, rfl, rfl⟩
  | none =>
      by_cases hk : apiKeyMissing rawKey = true
      · exact .inr (.inl ⟨apiKeyErrorMessage, by simp [hk]⟩)
      · cases response with
        | transportError st =>
            exact .inr (.inl
              ⟨"Failed to fetch " ++ symbol ++ ": " ++ st, by simp [hk]⟩)
        | ok info note errM body =>
            cases hinfo : parseInformationMessage info with
            | some m => exact .inr (.inl ⟨m, by simp [hk, hinfo]⟩)
            | none =>
                cases hnote : parseInformationMessage note with
                | some m => exact .inr (.inl ⟨m, by simp [hk, hinfo, hnote]⟩)
                | none =>
                    by_cases herr : errM.getD "" = ""
                    · cases body with
                      | none =>
                          exact .inr (.inl ⟨"No data available for " ++ symbol,
                            by simp [hk, hinfo, hnote, herr]⟩)
                      | some gq =>
                          cases hp : gq.price with
                          | none =>
                              exact .inr (.inl
                                ⟨"No data available for " ++ symbol,
                                  by simp [hk, hinfo, hnote, herr, hp]⟩)
                          | some p =>
                              exact .inr (.inr
                                ⟨{ symbol := symbol, price := p,
                                    change := gq.changePercent,
                                    previousClose := gq.previousClose,
                                    high := gq.high, low := gq.low,
                                    openPrice := gq.openPrice },
                                  by simp [hk, hinfo, hnote, herr, hp]⟩)
                    · exact .inr (.inl ⟨errM.getD "",
                        by simp [hk, hinfo, hnote, herr]⟩)

/-- **C8.** For every symbol and every value of the `useCache` flag:
whenever `fetchQuote` fails (configuration error, transport error,
provider-signaled error, missing price) the store is left completely
unchanged; whenever it succeeds the store holds the returned quote under
the quote cache key; and whenever it succeeds through the network path
(`useCache = false` — a forced refresh — or a cache miss) the store is
exactly the old store with the normalized quote written through under
its cache key with the current timestamp. -/
theorem fetchQuote_store_spec (rawKey : String) (store : Store Quote)
    (now : ℕ) (response : HttpResponse GlobalQuote) (symbol : String)
    (useCache : Bool) :
    (∀ e, (fetchQuote rawKey store now response symbol useCache).1 = .error e →
        (fetchQuote rawKey store now response symbol useCache).2 = store) ∧
      (∀ q, (fetchQuote rawKey store now response symbol useCache).1 = .ok q →
        ∃ ts, (fetchQuote rawKey store now response symbol useCache).2
            (CACHE_KEY_PREFIX ++ symbol) = some ⟨q, ts⟩) ∧
      (∀ q, (fetchQuote rawKey store now response symbol useCache).1 = .ok q →
        (useCache = false ∨
          getCachedData store (CACHE_KEY_PREFIX ++ symbol) "quote" now = none) →
        (fetchQuote rawKey store now response symbol useCache).2
          = setCachedData store (CACHE_KEY_PREFIX ++ symbol) q now) := by
  rcases fetchQuote_cases rawKey store now response symbol useCache with
    ⟨q, hq, heq⟩ | ⟨e, heq⟩ | ⟨q, heq⟩
  · refine ⟨?_, ?_, ?_⟩
    · intro e h
      rw [heq] at h
      exact absurd h (by simp)
    · intro q' h
      rw [heq] at h ⊢
      simp only [Except.ok.injEq] at h
      subst h
      cases hu : useCache with
      | false => rw [hu] at hq; exact absurd hq (by simp)
      | true =>
          rw [hu] at hq
          rw [if_pos rfl] at hq
          exact getCachedData_some hq
    · intro q' h hmiss
      rw [heq] at h
      simp only [Except.ok.injEq] at h
      subst h
      cases hu : useCache with
      | false => rw [hu] at hq; exact absurd hq (by simp)
      | true =>
          rw [hu, if_pos rfl] at hq
          rcases hmiss with hf | hn
          · rw [hu] at hf; exact absurd hf (by simp)
          · rw [hn] at hq; exact absurd hq (by simp)
  · refine ⟨?_, ?_, ?_⟩
    · intro e' h
      rw [heq]
    · intro q h
      rw [heq] at h
      exact absurd h (by simp)
    · intro q h
      rw [heq] at h
      exact absurd h (by simp)
  · refine ⟨?_, ?_, ?_⟩
    · intro e h
      rw [heq] at h
      exact absurd h (by simp)
    · intro q' h
      rw [heq] at h ⊢
      simp only [Except.ok.injEq] at h
      subst h
      exact ⟨now, by simp [setCachedData, Store.set]⟩
    · intro q' h _
      rw [heq] at h ⊢
      simp only [Except.ok.injEq] at h
      subst h
      rfl

/-- **C8 witness.** A concrete forced refresh (`useCache = false`) with
a clean provider payload: the call succeeds and the store gains exactly
the normalized quote under the quote cache key. -/
theorem fetchQuote_store_witness :
    (fetchQuote "REALKEY" Store.empty 5000
        (.ok none none none (some ⟨some 189, -1, 190, 191, 188, 190⟩))
        "AAPL" false).2
      = setCachedData Store.empty (CACHE_KEY_PREFIX ++ "AAPL")
          ⟨"AAPL", 189, -1, 190, 191, 188, 190⟩ 5000 := by
  have h := (fetchQuote_store_spec "REALKEY" Store.empty 5000
      (.ok none none none (some ⟨some 189, -1, 190, 191, 188, 190⟩))
      "AAPL" false).2.2 ⟨"AAPL", 189, -1, 190, 191, 188, 190⟩
  exact h (by rfl) (Or.inl rfl)

/-- **C9.** The credential precondition throws iff the trimmed API key
is empty or its uppercase form is one of the recognized placeholders
`DISABLED`, `YOUR_API_KEY`, `CHANGEME`; and, because the check runs
after the cache lookup, a fetch with `useCache = true` and a valid
cached entry returns the cached payload with no error and no store
change, for every raw key value (missing or placeholder included). -/
theorem apiKey_precondition_spec :
    (∀ rawKey : String, apiKeyMissing rawKey = true ↔
      (jsTrim rawKey = "" ∨
        jsToUpper (jsTrim rawKey)
          ∈ (["DISABLED", "YOUR_API_KEY", "CHANGEME"] : List String))) ∧
      (∀ (rawKey : String) (store : Store Quote) (now : ℕ)
          (response : HttpResponse GlobalQuote) (symbol : String) (q : Quote),
        getCachedData store (CACHE_KEY_PREFIX ++ symbol) "quote" now = some q →
        fetchQuote rawKey store now response symbol true = (.ok q, store)) := by
  constructor
  · intro rawKey
    unfold apiKeyMissing PLACEHOLDER_KEYS
    simp only [Bool.or_eq_true, beq_iff_eq, List.contains, List.elem_eq_mem,
      decide_eq_true_eq, List.mem_cons, List.not_mem_nil, or_false]
    rw [jsToUpper_eq_empty_iff]
    tauto
  · intro rawKey store now response symbol q hq
    simp [fetchQuote, hq]

/-- **C9 witness.** The placeholder key `" changeMe "` trims and
uppercases to `CHANGEME`, so the precondition throws on it; yet with a
valid cached entry, `fetchQuote` with that very key returns the cached
quote and leaves the store unchanged. -/
theorem apiKey_precondition_witness :
    (apiKeyMissing " changeMe " = true ↔
      (jsTrim " changeMe " = "" ∨
        jsToUpper (jsTrim " changeMe ")
          ∈ (["DISABLED", "YOUR_API_KEY", "CHANGEME"] : List String))) ∧
      fetchQuote " changeMe "
          (Store.set Store.empty (CACHE_KEY_PREFIX ++ "AAPL")
            ⟨"AAPL", 189, -1, 190, 191, 188, 190⟩ 1000)
          1000 (.ok none none none none) "AAPL" true
        = (.ok ⟨"AAPL", 189, -1, 190, 191, 188, 190⟩,
            Store.set Store.empty (CACHE_KEY_PREFIX ++ "AAPL")
              ⟨"AAPL", 189, -1, 190, 191, 188, 190⟩ 1000) :=
  ⟨apiKey_precondition_spec.1 " changeMe ",
    apiKey_precondition_spec.2 " changeMe " _ 1000 _ "AAPL" _ (by rfl)⟩

/-! ## Batch orchestrator (`fetchMultipleQuotes`)

The loop fetches the symbols strictly in input order; each per-symbol
outcome of `fetchQuote` is an input here (`results.get i` is the outcome
for `symbols.get i`).  The batch pauses, intra-batch delays and
progress callbacks do not touch the quote or error lists. -/

/-- The `for` loop body of `fetchMultipleQuotes`: push a successful
quote onto `quotes`, push a caught failure's message onto `errors`, both
in input order, never aborting the pass. -/
def runBatch : List (Except String Quote) → List Quote × List String
  | [] => ([], [])
  | r :: rs =>
      let rest := runBatch rs
      match r with
      | .ok q => (q :: rest.1, rest.2)
      | .error e => (rest.1, e :: rest.2)

/-- After the pass: `if (quotes.length > 0) return quotes;`
`if (errors.length > 0) throw new Error("Error fetching quotes: " + errors[0].error);`
`return quotes;`. -/
def fetchMultipleQuotes (results : List (Except String Quote)) :
    Except String (List Quote) :=
  let passOutcome := runBatch results
  if 0 < passOutcome.1.length then .ok passOutcome.1
  else
    match passOutcome.2 with
    | e :: _ => .error ("Error fetching quotes: " ++ e)
    | [] => .ok passOutcome.1

/-- The error message recorded for one per-symbol outcome, if it failed. -/
def recordedFailure : Except String Quote → Option String
  | .ok _ => none
  | .error e => some e

lemma runBatch_eq (results : List (Except String Quote)) :
    runBatch results
      = (results.filterMap Except.toOption,
          results.filterMap recordedFailure) := by
  induction results with
  | nil => rfl
  | cons r rs ih =>
      cases r with
      | ok q => simp [runBatch, ih, Except.toOption, recordedFailure]
      | error e => simp [runBatch, ih, Except.toOption, recordedFailure]

/-- **C2.** For every non-empty list of per-symbol outcomes: if at least
one symbol succeeded, the call returns (in input order) exactly the
quotes of the symbols whose fetch succeeded — per-symbol failures are
caught and recorded, never aborting the pass; if every symbol failed it
raises an error whose message contains (here: extends) the first
recorded failure's message; and it raises an error if and only if every
symbol failed. -/
theorem fetchMultipleQuotes_spec (results : List (Except String Quote))
    (hne : results ≠ []) :
    ((∃ r ∈ results, ∃ q, r = .ok q) →
        fetchMultipleQuotes results
          = .ok (results.filterMap Except.toOption)) ∧
      ((∀ r ∈ results, ∃ e, r = .error e) →
        ∃ e rest, results.filterMap recordedFailure = e :: rest ∧
          fetchMultipleQuotes results
            = .error ("Error fetching quotes: " ++ e)) ∧
      ((∃ msg, fetchMultipleQuotes results = .error msg) ↔
        ∀ r ∈ results, ∃ e, r = .error e) := by
  have hok_mem : (∃ r ∈ results, ∃ q, r = .ok q) ↔
      results.filterMap Except.toOption ≠ [] := by
    rw [Ne, List.filterMap_eq_nil_iff]
    constructor
    · rintro ⟨r, hr, q, rfl⟩ hall
      have := hall _ hr
      simp [Except.toOption] at this
    · intro hnotall
      by_contra hno
      push_neg at hno
      apply hnotall
      intro r hr
      cases r with
      | ok q => exact absurd rfl (hno (.ok q) hr q)
      | error e => rfl
  have hfail_all : (∀ r ∈ results, ∃ e, r = .error e) ↔
      results.filterMap Except.toOption = [] := by
    rw [List.filterMap_eq_nil_iff]
    constructor
    · intro hall r hr
      rcases hall r hr with ⟨e, rfl⟩
      rfl
    · intro hall r hr
      cases r with
      | ok q =>
          have := hall _ hr
          simp [Except.toOption] at this
      | error e => exact ⟨e, rfl⟩
  have hpart1 : (∃ r ∈ results, ∃ q, r = .ok q) →
      fetchMultipleQuotes results
        = .ok (results.filterMap Except.toOption) := by
    intro hex
    have hne' := hok_mem.mp hex
    simp only [fetchMultipleQuotes]
    rw [runBatch_eq]
    dsimp only
    rw [if_pos (List.length_pos.mpr hne')]
  have hpart2 : (∀ r ∈ results, ∃ e, r = .error e) →
      ∃ e rest, results.filterMap recordedFailure = e :: rest ∧
        fetchMultipleQuotes results
          = .error ("Error fetching quotes: " ++ e) := by
    intro hall
    have hnil := hfail_all.mp hall
    have hfailne : results.filterMap recordedFailure ≠ [] := by
      cases results with
      | nil => exact absurd rfl hne
      | cons r rs =>
          rcases hall r (by simp) with ⟨e, rfl⟩
          simp [recordedFailure]
    rcases hcons : results.filterMap recordedFailure with _ | ⟨e, rest⟩
    · exact absurd hcons hfailne
    · refine ⟨e, rest, rfl, ?_⟩
      simp only [fetchMultipleQuotes]
      rw [runBatch_eq]
      dsimp only
      rw [hnil, hcons]
      rfl
  refine ⟨hpart1, hpart2, ?_, ?_⟩
  · rintro ⟨msg, hmsg⟩
    by_contra hnot
    push_neg at hnot
    rcases hnot with ⟨r, hr, hnoerr⟩
    have hex : ∃ r ∈ results, ∃ q, r = .ok q := by
      cases r with
      | ok q => exact ⟨_, hr, q, rfl⟩
      | error e => exact absurd rfl (hnoerr e)
    rw [hpart1 hex] at hmsg
    exact absurd hmsg (by simp)
  · intro hall
    rcases hpart2 hall with ⟨e, rest, _, heq⟩
    exact ⟨_, heq⟩

/-- **C2 witness.** With outcomes `[failure "boom", success, failure "x"]`
(a non-empty pass with at least one success), the call returns exactly
the successful quote, in order, and does not raise. -/
theorem fetchMultipleQuotes_witness :
    ([Except.error "boom",
        Except.ok (⟨"AAPL", 189, -1, 190, 191, 188, 190⟩ : Quote),
        Except.error "x"] : List (Except String Quote)) ≠ [] ∧
      fetchMultipleQuotes
          [Except.error "boom",
            Except.ok (⟨"AAPL", 189, -1, 190, 191, 188, 190⟩ : Quote),
            Except.error "x"]
        = .ok [⟨"AAPL", 189, -1, 190, 191, 188, 190⟩] :=
  ⟨by simp,
    (fetchMultipleQuotes_spec _ (by simp)).1
      ⟨Except.ok (⟨"AAPL", 189, -1, 190, 191, 188, 190⟩ : Quote), by simp,
        ⟨"AAPL", 189, -1, 190, 191, 188, 190⟩, rfl⟩⟩

/-! ## Redaction of API-key-like tokens (C6)

`parseInformationMessage` sanitizes the provider's `Information` / `Note`
messages with `trimmed.replace(/[A-Z0-9]{16,}/g, '[API_KEY]')`.  The
lemmas below establish that the sanitizer's output never contains 16
consecutive `[A-Z0-9]` characters, hence no 16-character-or-longer key
token survives verbatim. -/

lemma noLongKeyRunAux_cons_key (cnt : ℕ) (c : Char) (rest : List Char)
    (h : isApiKeyChar c = true) :
    noLongKeyRunAux cnt (c :: rest)
      = (decide (cnt + 1 ≤ 15) && noLongKeyRunAux (cnt + 1) rest) := by
  simp [noLongKeyRunAux, h]

lemma noLongKeyRunAux_reset (cnt : ℕ) (c : Char) (rest : List Char)
    (h : isApiKeyChar c = false) :
    noLongKeyRunAux cnt (c :: rest) = noLongKeyRunAux 0 rest := by
  simp [noLongKeyRunAux, h]

lemma noLongKeyRunAux_placeholder (cnt : ℕ) (tail : List Char) :
    noLongKeyRunAux cnt ("[API_KEY]".data ++ tail) = noLongKeyRunAux 0 tail := by
  rfl

lemma noLongKeyRunAux_append_run (seg : List Char) :
    ∀ (cnt : ℕ) (tail : List Char), seg.all isApiKeyChar = true →
      cnt + seg.length ≤ 15 →
      noLongKeyRunAux cnt (seg ++ tail)
        = noLongKeyRunAux (cnt + seg.length) tail := by
  induction seg with
  | nil => intro cnt tail _ _; simp
  | cons c cs ih =>
      intro cnt tail hall hlen
      simp only [List.all_cons, Bool.and_eq_true] at hall
      simp only [List.length_cons] at hlen ⊢
      rw [List.cons_append, noLongKeyRunAux_cons_key cnt c _ hall.1,
        decide_eq_true (by omega : cnt + 1 ≤ 15), Bool.true_and,
        ih (cnt + 1) tail hall.2 (by omega)]
      congr 1
      omega

lemma noLongKeyRunAux_all_small (seg : List Char) (cnt : ℕ)
    (hall : seg.all isApiKeyChar = true) (hlen : cnt + seg.length ≤ 15) :
    noLongKeyRunAux cnt seg = true := by
  have h := noLongKeyRunAux_append_run seg cnt [] hall hlen
  rw [List.append_nil] at h
  rw [h]
  rfl

/-- The sanitizer never emits 16 consecutive `[A-Z0-9]` characters. -/
lemma sanitizeAux_noLongKeyRun :
    ∀ (l run : List Char), run.all isApiKeyChar = true →
      noLongKeyRun (sanitizeAux run l) = true := by
  intro l
  induction l with
  | nil =>
      intro run hall
      unfold sanitizeAux noLongKeyRun
      split_ifs with h16
      · rfl
      · exact noLongKeyRunAux_all_small run.reverse 0
          (by simpa using hall)
          (by simp only [List.length_reverse]; omega)
  | cons c cs ih =>
      intro run hall
      unfold sanitizeAux
      split_ifs with hkey h16
      · exact ih (c :: run) (by simp [hall, hkey])
      · unfold noLongKeyRun
        rw [noLongKeyRunAux_placeholder,
          noLongKeyRunAux_reset 0 c _ (by simp_all), ← noLongKeyRun]
        exact ih [] rfl
      · unfold noLongKeyRun
        rw [noLongKeyRunAux_append_run run.reverse 0 (c :: sanitizeAux [] cs)
            (by simpa using hall)
            (by simp only [List.length_reverse]; omega),
          noLongKeyRunAux_reset _ c _ (by simp_all), ← noLongKeyRun]
        exact ih [] rfl

/-- A prefix of a scanned list made of key characters extends the
pending run, so its length is bounded. -/
lemma noLongKeyRunAux_prefix_bound :
    ∀ (l : List Char) (cnt : ℕ), noLongKeyRunAux cnt l = true →
      ∀ t : List Char, t.all isApiKeyChar = true → t ≠ [] → t <+: l →
        cnt + t.length ≤ 15 := by
  intro l
  induction l with
  | nil =>
      intro cnt _ t _ htne hpre
      exact absurd (List.prefix_nil.mp hpre) htne
  | cons c cs ih =>
      intro cnt hscan t hall htne hpre
      cases t with
      | nil => exact absurd rfl htne
      | cons a t' =>
          rcases List.cons_prefix_cons.mp hpre with ⟨rfl, hpre'⟩
          simp only [List.all_cons, Bool.and_eq_true] at hall
          rw [noLongKeyRunAux_cons_key cnt a cs hall.1, Bool.and_eq_true,
            decide_eq_true_eq] at hscan
          cases t' with
          | nil => simpa using hscan.1
          | cons b t'' =>
              have hb := ih (cnt + 1) hscan.2 (b :: t'') hall.2 (by simp) hpre'
              simp only [List.length_cons] at hb ⊢
              omega

/-- No all-key-character infix of a clean-scanned list is longer than
15 characters. -/
lemma noLongKeyRunAux_infix_bound :
    ∀ (l : List Char) (cnt : ℕ), noLongKeyRunAux cnt l = true →
      ∀ t : List Char, t.all isApiKeyChar = true → t <:+: l →
        t.length ≤ 15 := by
  intro l
  induction l with
  | nil =>
      intro cnt _ t _ hinf
      rw [List.infix_nil.mp hinf]
      simp
  | cons c cs ih =>
      intro cnt hscan t hall hinf
      rcases List.infix_cons_iff.mp hinf with hpre | hinf'
      · rcases eq_or_ne t [] with rfl | htne
        · simp
        · have hb := noLongKeyRunAux_prefix_bound (c :: cs) cnt hscan t hall
            htne hpre
          omega
      · by_cases hkey : isApiKeyChar c = true
        · rw [noLongKeyRunAux_cons_key cnt c cs hkey, Bool.and_eq_true] at hscan
          exact ih (cnt + 1) hscan.2 t hall hinf'
        · rw [noLongKeyRunAux_reset cnt c cs (by simp_all)] at hscan
          exact ih 0 hscan t hall hinf'

/-- **C6 counterexample.** A provider `Error Message` carrying the
20-character uppercase-alphanumeric token `ABCDEFGHIJ1234567890` is
delivered by `fetchQuote` verbatim: the `Error Message` branch throws
`data["Error Message"]` without passing it through
`parseInformationMessage`, so the token is not replaced by a
placeholder (the sanitizer, had it been applied, would have produced
`"Invalid key [API_KEY] rejected"`). -/
theorem errorMessage_redaction_counterexample :
    (fetchQuote "REALKEY" Store.empty 0
        (.ok none none (some "Invalid key ABCDEFGHIJ1234567890 rejected") none)
        "AAPL" true).1
      = .error "Invalid key ABCDEFGHIJ1234567890 rejected" ∧
      ("ABCDEFGHIJ1234567890" : String).data.all isApiKeyChar = true ∧
      ("ABCDEFGHIJ1234567890" : String).data.length = 20 ∧
      ("ABCDEFGHIJ1234567890" : String).data
        <:+: ("Invalid key ABCDEFGHIJ1234567890 rejected" : String).data ∧
      sanitizeApiKey "Invalid key ABCDEFGHIJ1234567890 rejected"
        = "Invalid key [API_KEY] rejected" := by
  refine ⟨rfl, by decide, by decide,
    ⟨("Invalid key " : String).data, (" rejected" : String).data, by decide⟩,
    rfl⟩

/-- **C6 (amended).** Provider-signaled errors surfaced through the
`Information` and `Note` branches of `fetchQuote` are first passed
through the sanitizer: the delivered message is
`sanitizeApiKey (jsTrim raw)`, and no API-key-like token — no run of 16
or more (in particular 20) consecutive uppercase-alphanumeric
characters — occurs in it verbatim.  The `Error Message` branch,
however, delivers the provider's message verbatim, unredacted (see the
counterexample). -/
theorem information_note_redaction_spec :
    (∀ s m, parseInformationMessage (some s) = some m →
        m = sanitizeApiKey (jsTrim s) ∧
          ∀ t : List Char, t.all isApiKeyChar = true → 16 ≤ t.length →
            ¬ t <:+: m.data) ∧
      (∀ (rawKey : String) (store : Store Quote) (now : ℕ) (symbol : String)
          (useCache : Bool) (info note errM : Option String)
          (body : Option GlobalQuote) (m : String),
        (if useCache then
            getCachedData store (CACHE_KEY_PREFIX ++ symbol) "quote" now
          else none) = none →
        apiKeyMissing rawKey = false →
        parseInformationMessage info = some m →
        fetchQuote rawKey store now (.ok info note errM body) symbol useCache
          = (.error m, store)) ∧
      (∀ (rawKey : String) (store : Store Quote) (now : ℕ) (symbol : String)
          (useCache : Bool) (info note errM : Option String)
          (body : Option GlobalQuote) (m : String),
        (if useCache then
            getCachedData store (CACHE_KEY_PREFIX ++ symbol) "quote" now
          else none) = none →
        apiKeyMissing rawKey = false →
        parseInformationMessage info = none →
        parseInformationMessage note = some m →
        fetchQuote rawKey store now (.ok info note errM body) symbol useCache
          = (.error m, store)) ∧
      (∀ (rawKey : String) (store : Store Quote) (now : ℕ) (symbol : String)
          (useCache : Bool) (info note : Option String) (e : String)
          (body : Option GlobalQuote),
        (if useCache then
            getCachedData store (CACHE_KEY_PREFIX ++ symbol) "quote" now
          else none) = none →
        apiKeyMissing rawKey = false →
        parseInformationMessage info = none →
        parseInformationMessage note = none →
        e ≠ "" →
        fetchQuote rawKey store now (.ok info note (some e) body) symbol useCache
          = (.error e, store)) := by
  refine ⟨?_, ?_, ?_, ?_⟩
  · intro s m h
    simp only [parseInformationMessage] at h
    split_ifs at h with h1 h2
    injection h with h'
    subst h'
    refine ⟨rfl, ?_⟩
    intro t hall hlen hinf
    have hclean : noLongKeyRun (sanitizeAux [] (jsTrim s).data) = true :=
      sanitizeAux_noLongKeyRun (jsTrim s).data [] rfl
    have hb := noLongKeyRunAux_infix_bound (sanitizeAux [] (jsTrim s).data) 0
      hclean t hall hinf
    omega
  · intro rawKey store now symbol useCache info note errM body m hc hk hinfo
    simp [fetchQuote, hc, hk, hinfo]
  · intro rawKey store now symbol useCache info note errM body m hc hk hinfo
      hnote
    simp [fetchQuote, hc, hk, hinfo, hnote]
  · intro rawKey store now symbol useCache info note e body hc hk hinfo hnote he
    simp [fetchQuote, hc, hk, hinfo, hnote, he]

/-- **C6 amended witness.** A `Note` message carrying a 20-character
token parses to the sanitized form with the token replaced, and
`fetchQuote` surfaces exactly that sanitized message. -/
theorem information_note_redaction_witness :
    (parseInformationMessage (some "key ABCDEFGHIJ1234567890 used")
        = some "key [API_KEY] used" ∧
      ("key [API_KEY] used" : String)
          = sanitizeApiKey (jsTrim "key ABCDEFGHIJ1234567890 used") ∧
        ∀ t : List Char, t.all isApiKeyChar = true → 16 ≤ t.length →
          ¬ t <:+: ("key [API_KEY] used" : String).data) ∧
      fetchQuote "REALKEY" Store.empty 0
          (.ok (some "limit ABCDEFGHIJ1234567890 hit") none none none)
          "AAPL" true
        = (.error "limit [API_KEY] hit", Store.empty) :=
  ⟨⟨rfl, information_note_redaction_spec.1 "key ABCDEFGHIJ1234567890 used"
      "key [API_KEY] used" rfl⟩,
    information_note_redaction_spec.2.1 "REALKEY" Store.empty 0 "AAPL" true
      (some "limit ABCDEFGHIJ1234567890 hit") none none none
      "limit [API_KEY] hit" rfl rfl rfl⟩

/-! ## Listing status (`fetchListingStatus`) -/

/-- JavaScript `s.split(sep)` for a single-character separator, over the
character list (empty segments preserved, as in JS). -/
def splitOnChar (sep : Char) : List Char → List (List Char)
  | [] => [[]]
  | c :: cs =>
      let rest := splitOnChar sep cs
      if c = sep then [] :: rest
      else (c :: rest.headD []) :: rest.tail

/-- A filtered listing `{symbol, name}`; a field is `none` when the CSV
row is shorter than the header row (JS `undefined`). -/
structure Listing where
  symbol : Option String
  name : Option String
deriving DecidableEq

/-- The dedicated cache key of the listing feed. -/
def LISTING_CACHE_KEY : String := "stock_listing_status"

/-- `LISTING_CACHE_DURATION = 30 days`. -/
def LISTING_CACHE_DURATION : ℕ := 30 * 24 * 60 * 60 * 1000

/-- The row object built by
`headers.forEach((header, index) => obj[header] = values[index])`,
queried at `name`: assignments happen in header order, so for duplicate
headers the last one wins, and headers beyond the row's length hold
`undefined`. -/
def getField (headers values : List (List Char)) (name : List Char) :
    Option (List Char) :=
  ((headers.zip (values.map some
      ++ List.replicate (headers.length - values.length) none)).reverse.find?
    (fun assignment => assignment.1 == name)).bind
    (fun assignment => assignment.2)

/-- The parse → filter (`assetType ∈ {Stock, ETF}` and
`exchange ∈ {NASDAQ, NYSE, AMEX}`) → project (`{symbol, name}`) pipeline
of `fetchListingStatus`. -/
def parseListings (csvText : String) : List Listing :=
  let lines := splitOnChar '\n' (jsTrim csvText).data
  let headers := splitOnChar ',' (lines.headD [])
  (((lines.drop 1).map (splitOnChar ','))
    |>.filter (fun values =>
      (getField headers values ("assetType" : String).data
            == some (("Stock" : String).data)
        || getField headers values ("assetType" : String).data
            == some (("ETF" : String).data))
      && (getField headers values ("exchange" : String).data
            == some (("NASDAQ" : String).data)
        || getField headers values ("exchange" : String).data
            == some (("NYSE" : String).data)
        || getField headers values ("exchange" : String).data
            == some (("AMEX" : String).data))))
    |>.map (fun values =>
      { symbol := (getField headers values ("symbol" : String).data).map
          (fun l => (⟨l⟩ : String))
        name := (getField headers values ("name" : String).data).map
          (fun l => (⟨l⟩ : String)) })

/-- JavaScript `s.includes(pat)` over character lists: some suffix of
the scanned list starts with `pat`. -/
def includesSeq (pat : List Char) : List Char → Bool
  | [] => pat.isEmpty
  | c :: cs => pat.isPrefixOf (c :: cs) || includesSeq pat cs

/-- The first-line provider-error test:
`firstLine.includes("Error Message") || firstLine.includes("Information")
|| firstLine.includes("Note:")`. -/
def listingFirstLineHasError (csvText : String) : Bool :=
  let firstLine := (splitOnChar '\n' (jsTrim csvText).data).headD []
  includesSeq ("Error Message" : String).data firstLine
    || includesSeq ("Information" : String).data firstLine
    || includesSeq ("Note:" : String).data firstLine

/-- Outcome of the HTTP collaborator for the CSV endpoint. -/
inductive CsvResponse where
  | transportError (statusText : String)
  | ok (csvText : String)
deriving DecidableEq

/-- `fetchListingStatus()` with effects threaded explicitly.  The cache
read uses the raw stored entry against the fixed 30-day
`LISTING_CACHE_DURATION` (not `getCacheDuration`); an expired entry
falls through to the fetch and is left in place unless a successful
fetch overwrites it. -/
def fetchListingStatus (rawKey : String) (store : Store (List Listing))
    (now : ℕ) (response : CsvResponse) :
    Except String (List Listing) × Store (List Listing) :=
  match (match store LISTING_CACHE_KEY with
    | some entry =>
        if now - entry.timestamp < LISTING_CACHE_DURATION then some entry.data
        else none
    | none => none) with
  | some data => (.ok data, store)
  | none =>
      if apiKeyMissing rawKey then (.error apiKeyErrorMessage, store)
      else
        match response with
        | .transportError statusText =>
            (.error ("Failed to fetch listing status: " ++ statusText), store)
        | .ok csvText =>
            if listingFirstLineHasError csvText then
              (.error "API limit reached or error occurred", store)
            else
              let listings := parseListings csvText
              if listings.length = 0 then
                (.error "No valid listings found", store)
              else
                (.ok listings, Store.set store LISTING_CACHE_KEY listings now)

/-- **C10.** For every CSV payload whose parsed rows, restricted to
`assetType ∈ {Stock, ETF}` and `exchange ∈ {NASDAQ, NYSE, AMEX}`, yield
an empty listing set (and whose header line carries no provider-error
marker, so the rows are actually parsed), a `fetchListingStatus` call
that reaches the fetch path (no still-valid cached entry) throws
`No valid listings found` and returns the store unchanged: nothing is
written under the listing cache key and a previously cached (expired)
entry is preserved as-is. -/
theorem fetchListingStatus_empty_spec (rawKey : String)
    (store : Store (List Listing)) (now : ℕ) (csvText : String)
    (hcache : ∀ entry, store LISTING_CACHE_KEY = some entry →
      LISTING_CACHE_DURATION ≤ now - entry.timestamp)
    (hkey : apiKeyMissing rawKey = false)
    (hline : listingFirstLineHasError csvText = false)
    (hempty : parseListings csvText = []) :
    fetchListingStatus rawKey store now (.ok csvText)
      = (.error "No valid listings found", store) := by
  unfold fetchListingStatus
  have hcv : (match store LISTING_CACHE_KEY with
      | some entry =>
          if now - entry.timestamp < LISTING_CACHE_DURATION then
            some entry.data
          else none
      | none => none) = (none : Option (List Listing)) := by
    cases he : store LISTING_CACHE_KEY with
    | none => rfl
    | some entry =>
        have hexp := hcache entry he
        dsimp only
        rw [if_neg (by omega)]
  rw [hcv]
  simp [hkey, hline, hempty]

/-- **C10 witness.** With an expired cached listing entry and a CSV
whose single row is an LSE-listed stock (failing the exchange
restriction), the call throws `No valid listings found` and the expired
entry is preserved unchanged. -/
theorem fetchListingStatus_empty_witness :
    fetchListingStatus "REALKEY"
        (Store.set Store.empty LISTING_CACHE_KEY
          [⟨some "OLD", some "Old Corp"⟩] 0)
        LISTING_CACHE_DURATION
        (.ok "symbol,name,exchange,assetType\nFOO,Foo plc,LSE,Stock")
      = (.error "No valid listings found",
          Store.set Store.empty LISTING_CACHE_KEY
            [⟨some "OLD", some "Old Corp"⟩] 0) :=
  fetchListingStatus_empty_spec "REALKEY" _ _ _
    (fun entry h => by
      injection h with h'
      rw [← h']
      decide)
    rfl rfl rfl

end StockDashboard
